import Mathlib

/-!
Verification of the nexops change-event correlation core against its
specification.  The visible source of the repository consists of the two package
manifests `app/models/__init__.py` and `app/api/routes/__init__.py`; the
correlation pipeline itself (normalizer, dedup/ordering buffer, correlation
engine, timeline store, incident registry) is specified but not present under
`src/`, so those components are modelled from the spec, faithful to its words.
-/

namespace NexOps

/-! ## Data model (spec §3) -/

/-- Modelled from the spec: `change_type` enumerated variant of a
`TimelineEvent` (`app/models/timeline.py`, not under `src/`). -/
inductive ChangeType where
  | Deployment | BuildSuccess | BuildFailure | MergeToMain | MergeToBranch
  | ManualAction | ConfigChange | ScaleEvent
deriving DecidableEq, Repr

/-- Modelled from the spec: `change_source` enumerated origin system
(`app/models/timeline.py`, not under `src/`). -/
inductive ChangeSource where
  | Kubernetes | Jenkins | GitFlow | SelfService
deriving DecidableEq, Repr

/-- Modelled from the spec: a normalized change notification
(`app/models/timeline.py`, not under `src/`).  Timestamps are integers. -/
structure TimelineEvent where
  id : Nat
  occurred_at : Int
  received_at : Int
  change_type : ChangeType
  change_source : ChangeSource
  resource_key : String
  payload : List (String × String)
deriving DecidableEq, Repr

/-- Modelled from the spec: dedup tolerance window (seconds) used to round
`occurred_at` when deriving the `dedup_key`; a configurable constant. -/
def dedupTolerance : Int := 60

/-- Modelled from the spec: the derived fingerprint
(source + resource_key + occurred_at rounded to a tolerance window +
change_type) used to collapse retried notifications. -/
def dedup_key (e : TimelineEvent) : ChangeSource × String × Int × ChangeType :=
  (e.change_source, e.resource_key, e.occurred_at / dedupTolerance, e.change_type)

/-- Modelled from the spec: incident severity enumeration
(`app/models/incident.py`, not under `src/`). -/
inductive IncidentSeverity where
  | Low | Medium | High | Critical
deriving DecidableEq, Repr

/-- Modelled from the spec: incident status enumeration
(`app/models/incident.py`, not under `src/`). -/
inductive IncidentStatus where
  | Open | Acknowledged | Resolved
deriving DecidableEq, Repr

/-- Modelled from the spec: an operational issue under investigation
(`app/models/incident.py`, not under `src/`). -/
structure Incident where
  id : Nat
  severity : IncidentSeverity
  status : IncidentStatus
  opened_at : Int
  resolved_at : Option Int
  affected_resource_keys : List String
deriving DecidableEq, Repr

/-! ## Timeline Store access contract (spec §4.4) -/

/-- Modelled from the spec: the append-only history of the Timeline Store is a
sequence of stored events (the access contract over external storage). -/
abbrev TimelineStore := List TimelineEvent

/-- Modelled from the spec: `append(event)`, idempotent on `dedup_key` — an
event whose `dedup_key` is already stored is not stored a second time
(`app/models/timeline.py` store layer, not under `src/`). -/
def TimelineStore.append (st : TimelineStore) (e : TimelineEvent) : TimelineStore :=
  if st.any (fun x => dedup_key x = dedup_key e) then st else st ++ [e]

/-! ## Dedup & Ordering Buffer (spec §4.2) -/

/-- Modelled from the spec: result of admitting an event into the Dedup &
Ordering Buffer — one of Accepted, DuplicateDropped, LateArrival(lateness). -/
inductive AdmitResult where
  | Accepted (e : TimelineEvent)
  | DuplicateDropped
  | LateArrival (e : TimelineEvent) (lateness : Int)
deriving DecidableEq, Repr

/-- Modelled from the spec: duration of the per-resource sliding dedup window
(seconds); configurable, large enough to cover webhook retry storms. -/
def dedupWindow : Int := 300

/-- Modelled from the spec: the per-`resource_key` buffer state — the sliding
window of recently seen dedup representatives, the pending events awaiting the
bounded-delay flush, the stream already emitted downstream, the flagged late
arrivals (still admitted, history is append-only), and the emission
watermark. -/
structure BufferState where
  window : List TimelineEvent
  pending : List TimelineEvent
  emitted : List TimelineEvent
  late : List TimelineEvent
  watermark : Int
deriving DecidableEq, Repr

/-- Modelled from the spec: drop window entries older than the sliding dedup
window relative to the current ingestion time. -/
def pruneWindow (now : Int) (w : List TimelineEvent) : List TimelineEvent :=
  w.filter (fun r => now - dedupWindow ≤ r.received_at)

/-- Modelled from the spec: when a duplicate arrives, the earlier `received_at`
wins — update the retained representative (first match on the dedup key) to the
minimum of its own `received_at` and that of the duplicate. -/
def bumpReceived (k : ChangeSource × String × Int × ChangeType) (t : Int) :
    List TimelineEvent → List TimelineEvent
  | [] => []
  | r :: rs =>
    if dedup_key r = k then { r with received_at := min r.received_at t } :: rs
    else r :: bumpReceived k t rs

/-- Modelled from the spec: `admit(event) -> AdmitResult`.  A duplicate (same
`dedup_key` seen within the window) is dropped from downstream processing and
the retained copy keeps the minimum `received_at`.  An event older than the
lateness threshold `thr` (supplied by the engine context, see
`oldestClosedCorrelated`) or older than the emission watermark is flagged
`LateArrival` but still admitted into the append-only history.  Otherwise the
event is Accepted into the pending reorder buffer. -/
def admitEvent (thr : Int) (e : TimelineEvent) (st : BufferState) :
    AdmitResult × BufferState :=
  let w := pruneWindow e.received_at st.window
  if w.any (fun r => dedup_key r = dedup_key e) then
    (.DuplicateDropped, { st with window := bumpReceived (dedup_key e) e.received_at w })
  else if e.occurred_at < max st.watermark thr then
    (.LateArrival e (max st.watermark thr - e.occurred_at),
     { st with window := e :: w, late := st.late ++ [e] })
  else
    (.Accepted e, { st with window := e :: w, pending := st.pending ++ [e] })

/-- Comparison of timeline events by `occurred_at`. -/
def occLe (a b : TimelineEvent) : Prop := a.occurred_at ≤ b.occurred_at

instance : DecidableRel occLe := fun a b => Int.decLe _ _

instance : IsTotal TimelineEvent occLe := ⟨fun a b => Int.le_total _ _⟩

instance : IsTrans TimelineEvent occLe := ⟨fun _ _ _ => Int.le_trans⟩

/-- The maximum `occurred_at` over a list of events, starting from `w`. -/
def maxOcc (w : Int) (l : List TimelineEvent) : Int :=
  l.foldl (fun a e => max a e.occurred_at) w

/-- Modelled from the spec: the bounded-delay flush — emit the pending events
in non-decreasing `occurred_at` order and advance the watermark past them. -/
def flushBuffer (st : BufferState) : BufferState :=
  { st with pending := [],
            emitted := st.emitted ++ st.pending.insertionSort occLe,
            watermark := maxOcc st.watermark st.pending }

/-- An operation on the multiplexed per-resource buffers: admit an event
(routed to the buffer of its `resource_key`, with engine-supplied lateness
threshold), or flush the buffer of one resource key. -/
inductive BufOp where
  | admitE (thr : Int) (e : TimelineEvent)
  | flushK (k : String)

/-- The buffers of all resource keys (one independent pipeline per key). -/
def Buffers := String → BufferState

/-- Apply one buffer operation to the multiplexed buffers. -/
def stepBuffers (db : Buffers) : BufOp → Buffers
  | .admitE thr e => fun k =>
      if k = e.resource_key then (admitEvent thr e (db e.resource_key)).2 else db k
  | .flushK kf => fun k => if k = kf then flushBuffer (db kf) else db k

/-- Run a sequence of buffer operations. -/
def runBuffers (db : Buffers) (ops : List BufOp) : Buffers :=
  ops.foldl stepBuffers db

/-- The initial buffers: everything empty, watermark `w0`. -/
def initBuffers (w0 : Int) : Buffers := fun _ => ⟨[], [], [], [], w0⟩

/-! ## Correlation Engine (spec §4.3) -/

/-- Modelled from the spec: the enumerated reason of a Correlation. -/
inductive Basis where
  | TemporalOverlap | ResourceMatch | Both
deriving DecidableEq, Repr

/-- Modelled from the spec: a directed, scored association between a
TimelineEvent and an Incident. -/
structure Correlation where
  event_id : Nat
  incident_id : Nat
  confidence : ℚ
  basis : Basis
deriving DecidableEq, Repr

/-- The identifying key of a Correlation record. -/
def ckey (c : Correlation) : Nat × Nat := (c.event_id, c.incident_id)

/-- Modelled from the spec: configurable look-back margin (seconds) before
`opened_at` capturing the change that caused the incident. -/
def lookbackMargin : Int := 600

/-- Absolute time distance between two timestamps. -/
def dist (a b : Int) : Int := if a ≤ b then b - a else a - b

/-- Modelled from the spec: `Both` confidence — 1.0 minus a small decay term
based on the distance from `incident.opened_at`. -/
def confBoth (d : Int) : ℚ := 1 - min (1/10) ((d : ℚ) / 36000)

/-- Modelled from the spec: low base confidence for a resource match alone. -/
def confResource : ℚ := 1/4

/-- Modelled from the spec: medium base confidence for temporal overlap alone,
decaying linearly with the distance from `opened_at`. -/
def confTemporal (d : Int) : ℚ := max 0 (1/2 - (d : ℚ) / 7200)

/-- Modelled from the spec: the correlation window of the incident contains an
instant when it lies between `opened_at` minus the look-back margin and
`resolved_at` (or now, if unresolved). -/
def windowContains (now : Int) (inc : Incident) (t : Int) : Bool :=
  decide (inc.opened_at - lookbackMargin ≤ t) && decide (t ≤ inc.resolved_at.getD now)

/-- Modelled from the spec: resource affinity — the field
`affected_resource_keys` of the incident contains the `resource_key` of the event. -/
def resourceMatches (inc : Incident) (e : TimelineEvent) : Bool :=
  inc.affected_resource_keys.contains e.resource_key

/-- Modelled from the spec: evaluate one candidate incident against an event —
resource match and temporal overlap give `basis = Both` with the strongest
confidence; each signal alone gives its base confidence; otherwise no
correlation. -/
def evaluate (now : Int) (inc : Incident) (e : TimelineEvent) : Option Correlation :=
  let r := resourceMatches inc e
  let t := windowContains now inc e.occurred_at
  if r && t then
    some ⟨e.id, inc.id, confBoth (dist e.occurred_at inc.opened_at), .Both⟩
  else if r then some ⟨e.id, inc.id, confResource, .ResourceMatch⟩
  else if t then
    some ⟨e.id, inc.id, confTemporal (dist e.occurred_at inc.opened_at), .TemporalOverlap⟩
  else none

/-- Modelled from the spec: persist/update a Correlation record — at most one
record per `(event_id, incident_id)` pair, so an existing record for the key is
recomputed in place rather than duplicated. -/
def upsert (c : Correlation) : List Correlation → List Correlation
  | [] => [c]
  | x :: xs => if ckey x = ckey c then c :: xs else x :: upsert c xs

/-- Modelled from the spec: process an admitted event — upsert a correlation
for every qualifying candidate incident (correlations to ALL qualifying
incidents are retained, no best-match suppression). -/
def processEvent (now : Int) (incs : List Incident) (e : TimelineEvent)
    (cs : List Correlation) : List Correlation :=
  incs.foldl (fun acc inc =>
    match evaluate now inc e with
    | some c => upsert c acc
    | none => acc) cs

/-- Modelled from the spec: re-evaluation of one incident recomputes the
confidence of all existing correlations of that incident (looking the events
up in the store) rather than only adding new ones; records of other incidents
are untouched and no record is discarded. -/
def reevaluate (now : Int) (inc : Incident) (store : List TimelineEvent)
    (cs : List Correlation) : List Correlation :=
  cs.map (fun c =>
    if c.incident_id = inc.id then
      match store.find? (fun e => e.id = c.event_id) with
      | some e =>
        match evaluate now inc e with
        | some cNew => cNew
        | none => c
      | none => c
    else c)

/-- An engine operation: process an admitted event against the candidate
incidents, or re-evaluate one incident (triggered by a late arrival or an
incident-window revision). -/
inductive EngineOp where
  | process (now : Int) (incs : List Incident) (e : TimelineEvent)
  | reeval (now : Int) (inc : Incident) (store : List TimelineEvent)

/-- Apply one engine operation to the correlation records. -/
def stepEngine (cs : List Correlation) : EngineOp → List Correlation
  | .process now incs e => processEvent now incs e cs
  | .reeval now inc store => reevaluate now inc store cs

/-- Run a sequence of engine operations from the given correlation records. -/
def runEngine (cs : List Correlation) (ops : List EngineOp) : List Correlation :=
  ops.foldl stepEngine cs

/-- At most one Correlation record per `(event_id, incident_id)` pair. -/
def KeysNodup (cs : List Correlation) : Prop := (cs.map ckey).Nodup

/-- Modelled from the spec: the correlation window of an incident has closed when
`resolved_at` is set. -/
def windowClosed (inc : Incident) : Bool := inc.resolved_at.isSome

/-- The minimum `occurred_at` over a list of events, if any. -/
def minOcc (l : List TimelineEvent) : Option Int :=
  l.foldl (fun a e =>
    match a with
    | none => some e.occurred_at
    | some m => some (min m e.occurred_at)) none

/-- Modelled from the spec: the `occurred_at` of the oldest event already
correlated to any Incident whose correlation window has already closed — the
lateness threshold the engine supplies to the buffer. -/
def oldestClosedCorrelated (incs : List Incident) (cs : List Correlation)
    (store : List TimelineEvent) : Option Int :=
  minOcc (store.filter (fun e =>
    cs.any (fun c =>
      c.event_id = e.id &&
      incs.any (fun inc => inc.id = c.incident_id && windowClosed inc))))

/-! ## Incident Registry lifecycle (spec §4.5, §3) -/

/-- Modelled from the spec: open a new incident — status Open, no
`resolved_at`. -/
def Incident.openNew (i : Nat) (sev : IncidentSeverity) (t : Int)
    (keys : List String) : Incident :=
  ⟨i, sev, .Open, t, none, keys⟩

/-- Modelled from the spec: acknowledge an open incident. -/
def Incident.acknowledge (inc : Incident) : Incident :=
  if inc.status = .Open then { inc with status := .Acknowledged } else inc

/-- Modelled from the spec: resolve an incident at time `t`; the registry
maintains `resolved_at >= opened_at`, so the recorded resolution time is
clamped to `opened_at`. -/
def Incident.resolve (inc : Incident) (t : Int) : Incident :=
  if inc.status = .Resolved then inc
  else { inc with status := .Resolved, resolved_at := some (max t inc.opened_at) }

/-- The incident lifecycle invariant: `resolved_at` is set iff the status is
Resolved, and when set it is at least `opened_at`. -/
def incidentInv (inc : Incident) : Prop :=
  match inc.resolved_at with
  | none => inc.status ≠ .Resolved
  | some r => inc.status = .Resolved ∧ inc.opened_at ≤ r

instance (inc : Incident) : Decidable (incidentInv inc) := by
  unfold incidentInv
  cases inc.resolved_at <;> infer_instance

/-- A lifecycle operation after an incident is opened. -/
inductive RegOp where
  | ack
  | resolveAt (t : Int)

/-- Apply one lifecycle operation. -/
def stepIncident (inc : Incident) : RegOp → Incident
  | .ack => inc.acknowledge
  | .resolveAt t => inc.resolve t

/-- Run a sequence of lifecycle operations. -/
def runIncident (inc : Incident) (ops : List RegOp) : Incident :=
  ops.foldl stepIncident inc

/-! ## Event Normalizer (spec §4.1) -/

/-- Modelled from the spec: the normalization failure taxonomy. -/
inductive NormalizationError where
  | UnrecognizedChangeType
  | MissingResourceKey
deriving DecidableEq, Repr

/-- Look up a field of a source payload (key/value attributes). -/
def lookupField (k : String) (p : List (String × String)) : Option String :=
  (p.find? (fun kv => kv.1 = k)).map (fun kv => kv.2)

/-- Modelled from the spec: the per-source adapter mapping of the payload
type tag to a canonical `change_type` variant (tagged-variant dispatch, one
mapping per `change_source`). -/
def parseChangeType : ChangeSource → String → Option ChangeType
  | .Kubernetes, "Deployment" => some .Deployment
  | .Kubernetes, "ConfigChange" => some .ConfigChange
  | .Kubernetes, "ScaleEvent" => some .ScaleEvent
  | .Jenkins, "BuildSuccess" => some .BuildSuccess
  | .Jenkins, "BuildFailure" => some .BuildFailure
  | .GitFlow, "MergeToMain" => some .MergeToMain
  | .GitFlow, "MergeToBranch" => some .MergeToBranch
  | .SelfService, "ManualAction" => some .ManualAction
  | _, _ => none

/-- Modelled from the spec: the `change_type` the payload maps to, if any. -/
def changeTypeOf (src : ChangeSource) (p : List (String × String)) : Option ChangeType :=
  (lookupField "type" p).bind (parseChangeType src)

/-- Modelled from the spec: the resource identifier derived from the payload,
if any. -/
def resourceKeyOf (p : List (String × String)) : Option String :=
  lookupField "resource_key" p

/-- Modelled from the spec: `normalize(source_payload, change_source)` — fails
with `UnrecognizedChangeType` when the payload maps to no `change_type`
variant, then with `MissingResourceKey` when no resource identifier can be
derived, otherwise produces the canonical TimelineEvent.  Pure: no side effect
beyond the returned value, no storage write. -/
def normalize (src : ChangeSource) (p : List (String × String))
    (idv : Nat) (occ rcv : Int) : Except NormalizationError TimelineEvent :=
  match changeTypeOf src p with
  | none => .error .UnrecognizedChangeType
  | some ct =>
    match resourceKeyOf p with
    | none => .error .MissingResourceKey
    | some rk => .ok ⟨idv, occ, rcv, ct, src, rk, p⟩

/-! ## Package manifests (the code actually under `src/`) -/

/-- Names imported at the top of `src/backend/app/models/__init__.py`. -/
def models_imports : List String :=
  ["Base", "Incident", "IncidentSeverity", "IncidentStatus",
   "TimelineEvent", "ChangeType", "ChangeSource"]

/-- The `__all__` list of `src/backend/app/models/__init__.py`. -/
def models_all : List String :=
  ["Base", "Incident", "IncidentSeverity", "IncidentStatus",
   "TimelineEvent", "ChangeType", "ChangeSource"]

/-- Names imported at the top of `src/backend/app/api/routes/__init__.py`. -/
def routes_imports : List String :=
  ["health", "kubernetes", "jenkins", "incidents", "timeline",
   "selfservice", "gitflow"]

/-- The `__all__` list of `src/backend/app/api/routes/__init__.py`. -/
def routes_all : List String :=
  ["health", "kubernetes", "jenkins", "incidents", "timeline",
   "selfservice", "gitflow"]

/-- The route module named after a given `ChangeSource`. -/
def routeOf : ChangeSource → String
  | .Kubernetes => "kubernetes"
  | .Jenkins => "jenkins"
  | .GitFlow => "gitflow"
  | .SelfService => "selfservice"

/-- All `ChangeSource` variants. -/
def allSources : List ChangeSource :=
  [.Kubernetes, .Jenkins, .GitFlow, .SelfService]

/-- The per-resource buffer invariant behind the ordering guarantee: the
emitted stream is sorted by `occurred_at`, every pending event is at or past
the watermark, and every emitted event is at or before it. -/
def BufInv (st : BufferState) : Prop :=
  st.emitted.Sorted occLe ∧
  (∀ e ∈ st.pending, st.watermark ≤ e.occurred_at) ∧
  (∀ e ∈ st.emitted, e.occurred_at ≤ st.watermark)

/-! ## Theorems -/

theorem le_maxOcc (w : Int) (l : List TimelineEvent) : w ≤ maxOcc w l := by
  induction l generalizing w with
  | nil => exact le_refl w
  | cons x xs ih =>
    exact le_trans (le_max_left w x.occurred_at) (ih (max w x.occurred_at))

theorem mem_le_maxOcc (w : Int) {e : TimelineEvent} {l : List TimelineEvent}
    (h : e ∈ l) : e.occurred_at ≤ maxOcc w l := by
  induction l generalizing w with
  | nil => cases h
  | cons x xs ih =>
    rcases List.mem_cons.mp h with rfl | h2
    · exact le_trans (le_max_right w e.occurred_at) (le_maxOcc _ xs)
    · exact ih _ h2

theorem admitEvent_inv (thr : Int) (e : TimelineEvent) (st : BufferState)
    (h : BufInv st) : BufInv (admitEvent thr e st).2 := by
  obtain ⟨h1, h2, h3⟩ := h
  unfold admitEvent
  dsimp only
  split
  · exact ⟨h1, h2, h3⟩
  · split
    · exact ⟨h1, h2, h3⟩
    · rename_i hnl
      refine ⟨h1, ?_, h3⟩
      intro x hx
      rcases List.mem_append.mp hx with hx | hx
      · exact h2 x hx
      · rw [List.mem_singleton] at hx
        subst hx
        exact le_trans (le_max_left _ _) (not_lt.mp hnl)

theorem flushBuffer_inv (st : BufferState) (h : BufInv st) :
    BufInv (flushBuffer st) := by
  obtain ⟨h1, h2, h3⟩ := h
  unfold flushBuffer
  refine ⟨?_, ?_, ?_⟩
  · dsimp only
    rw [List.Sorted, List.pairwise_append]
    refine ⟨h1, List.sorted_insertionSort occLe st.pending, ?_⟩
    intro a ha b hb
    have hbp : b ∈ st.pending := (List.perm_insertionSort occLe st.pending).mem_iff.mp hb
    exact le_trans (h3 a ha) (h2 b hbp)
  · intro x hx
    cases hx
  · intro x hx
    rcases List.mem_append.mp hx with hx | hx
    · exact le_trans (h3 x hx) (le_maxOcc _ _)
    · exact mem_le_maxOcc _ ((List.perm_insertionSort occLe st.pending).mem_iff.mp hx)

theorem stepBuffers_inv (db : Buffers) (op : BufOp)
    (h : ∀ k, BufInv (db k)) (k : String) : BufInv (stepBuffers db op k) := by
  cases op with
  | admitE thr e =>
    simp only [stepBuffers]
    split
    · exact admitEvent_inv thr e _ (h e.resource_key)
    · exact h k
  | flushK kf =>
    simp only [stepBuffers]
    split
    · exact flushBuffer_inv _ (h kf)
    · exact h k

theorem runBuffers_inv (db : Buffers) (ops : List BufOp)
    (h : ∀ k, BufInv (db k)) (k : String) : BufInv (runBuffers db ops k) := by
  induction ops generalizing db with
  | nil => exact h k
  | cons op rest ih => exact ih (stepBuffers db op) (stepBuffers_inv db op h)

/-- C2: for every fixed `resource_key`, after any sequence of admissions (in
any physical arrival order, with any lateness thresholds) and flushes, the
stream the buffer has emitted downstream for that key is non-decreasing in
`occurred_at`. -/
theorem emitted_nondecreasing (w0 : Int) (ops : List BufOp) (k : String) :
    ((runBuffers (initBuffers w0) ops) k).emitted.Sorted occLe :=
  (runBuffers_inv (initBuffers w0) ops
    (fun _ => ⟨List.sorted_nil,
      fun x hx => absurd hx (List.not_mem_nil x),
      fun x hx => absurd hx (List.not_mem_nil x)⟩)
    k).1

theorem dedup_key_received (r : TimelineEvent) (t : Int) :
    dedup_key { r with received_at := t } = dedup_key r := rfl

theorem bumpReceived_find (e : TimelineEvent) (t : Int) (l : List TimelineEvent)
    (r : TimelineEvent)
    (h : l.find? (fun x => dedup_key x = dedup_key e) = some r) :
    (bumpReceived (dedup_key e) t l).find? (fun x => dedup_key x = dedup_key e)
      = some { r with received_at := min r.received_at t } := by
  induction l with
  | nil => simp at h
  | cons x xs ih =>
    by_cases hx : dedup_key x = dedup_key e
    · rw [List.find?_cons_of_pos _ (by simpa using hx)] at h
      injection h with h
      subst h
      rw [bumpReceived, if_pos hx]
      exact List.find?_cons_of_pos _ (by simpa using hx)
    · rw [List.find?_cons_of_neg _ (by simpa using hx)] at h
      rw [bumpReceived, if_neg hx]
      rw [List.find?_cons_of_neg _ (by simpa using hx)]
      exact ih h

theorem bumpReceived_length (k : ChangeSource × String × Int × ChangeType)
    (t : Int) (l : List TimelineEvent) :
    (bumpReceived k t l).length = l.length := by
  induction l with
  | nil => rfl
  | cons x xs ih =>
    rw [bumpReceived]
    split
    · simp
    · simpa using ih

/-- C5: when an event arrives whose `dedup_key` was already seen within the
per-resource sliding window, admission returns `DuplicateDropped`, nothing is
passed to downstream processing (pending, emitted and late streams are
untouched), exactly one copy remains in the window, and the retained
representative keeps the minimum of the two `received_at` values — so the
`received_at` of the earlier arrival wins. -/
theorem duplicate_dropped_min_received (thr : Int) (e : TimelineEvent)
    (st : BufferState) (r : TimelineEvent)
    (hf : (pruneWindow e.received_at st.window).find?
            (fun x => dedup_key x = dedup_key e) = some r) :
    (admitEvent thr e st).1 = .DuplicateDropped ∧
    (admitEvent thr e st).2.pending = st.pending ∧
    (admitEvent thr e st).2.emitted = st.emitted ∧
    (admitEvent thr e st).2.late = st.late ∧
    (admitEvent thr e st).2.window.find? (fun x => dedup_key x = dedup_key e)
      = some { r with received_at := min r.received_at e.received_at } ∧
    (admitEvent thr e st).2.window.length
      = (pruneWindow e.received_at st.window).length := by
  have hd : (pruneWindow e.received_at st.window).any
      (fun x => dedup_key x = dedup_key e) = true := by
    rw [List.any_eq_true]
    refine ⟨r, List.mem_of_find?_eq_some hf, ?_⟩
    simpa using List.find?_some hf
  unfold admitEvent
  dsimp only
  rw [if_pos hd]
  exact ⟨rfl, rfl, rfl, rfl, bumpReceived_find e e.received_at _ r hf,
    bumpReceived_length _ _ _⟩

/-- C5 witness: two Jenkins BuildFailure notifications with identical
`dedup_key` arriving 3 seconds apart leave exactly one retained copy with the
earlier `received_at`. -/
theorem duplicate_dropped_min_received_witness :
    (pruneWindow 1003
        (BufferState.mk [⟨1, 100, 1000, .BuildFailure, .Jenkins, "job-1", []⟩]
          [] [] [] 0).window).find?
        (fun x => dedup_key x =
          dedup_key (⟨2, 100, 1003, .BuildFailure, .Jenkins, "job-1", []⟩ : TimelineEvent))
      = some ⟨1, 100, 1000, .BuildFailure, .Jenkins, "job-1", []⟩ ∧
    (admitEvent 0 (⟨2, 100, 1003, .BuildFailure, .Jenkins, "job-1", []⟩ : TimelineEvent)
        (BufferState.mk [⟨1, 100, 1000, .BuildFailure, .Jenkins, "job-1", []⟩]
          [] [] [] 0)).1 = .DuplicateDropped ∧
    (admitEvent 0 (⟨2, 100, 1003, .BuildFailure, .Jenkins, "job-1", []⟩ : TimelineEvent)
        (BufferState.mk [⟨1, 100, 1000, .BuildFailure, .Jenkins, "job-1", []⟩]
          [] [] [] 0)).2.window.find?
        (fun x => dedup_key x =
          dedup_key (⟨2, 100, 1003, .BuildFailure, .Jenkins, "job-1", []⟩ : TimelineEvent))
      = some ⟨1, 100, min 1000 1003, .BuildFailure, .Jenkins, "job-1", []⟩ := by
  have hf : (pruneWindow 1003
      (BufferState.mk [⟨1, 100, 1000, .BuildFailure, .Jenkins, "job-1", []⟩]
        [] [] [] 0).window).find?
      (fun x => dedup_key x =
        dedup_key (⟨2, 100, 1003, .BuildFailure, .Jenkins, "job-1", []⟩ : TimelineEvent))
      = some ⟨1, 100, 1000, .BuildFailure, .Jenkins, "job-1", []⟩ := by decide
  have h := duplicate_dropped_min_received 0
    (⟨2, 100, 1003, .BuildFailure, .Jenkins, "job-1", []⟩ : TimelineEvent)
    (BufferState.mk [⟨1, 100, 1000, .BuildFailure, .Jenkins, "job-1", []⟩] [] [] [] 0)
    (⟨1, 100, 1000, .BuildFailure, .Jenkins, "job-1", []⟩ : TimelineEvent) hf
  exact ⟨hf, h.1, h.2.2.2.2.1⟩

/-- C1: appending two events with the same `dedup_key` (in particular the same
raw source payload twice) leaves the Timeline Store equal to the store after
the first append alone: `append` is idempotent on `dedup_key`. -/
theorem append_idempotent_on_dedup_key (st : TimelineStore) (e e' : TimelineEvent)
    (h : dedup_key e' = dedup_key e) :
    (st.append e).append e' = st.append e := by
  unfold TimelineStore.append
  by_cases hst : st.any (fun x => dedup_key x = dedup_key e)
  · simp only [hst, if_true]
    have : st.any (fun x => dedup_key x = dedup_key e') = true := by
      rw [List.any_eq_true] at hst ⊢
      obtain ⟨x, hx, hk⟩ := hst
      exact ⟨x, hx, by simp_all⟩
    simp [this]
  · simp only [hst, if_false]
    have : (st ++ [e]).any (fun x => dedup_key x = dedup_key e') = true := by
      rw [List.any_eq_true]
      exact ⟨e, by simp, by simp [h]⟩
    simp [this]

/-- C1 witness: concrete evaluation of idempotent append at a specific event. -/
theorem append_idempotent_on_dedup_key_witness :
    TimelineStore.append
      (TimelineStore.append []
        (⟨1, 0, 0, .Deployment, .Kubernetes, "svc-x", []⟩ : TimelineEvent))
      (⟨2, 0, 5, .Deployment, .Kubernetes, "svc-x", []⟩ : TimelineEvent)
      = TimelineStore.append []
          (⟨1, 0, 0, .Deployment, .Kubernetes, "svc-x", []⟩ : TimelineEvent) :=
  append_idempotent_on_dedup_key []
    (⟨1, 0, 0, .Deployment, .Kubernetes, "svc-x", []⟩ : TimelineEvent)
    (⟨2, 0, 5, .Deployment, .Kubernetes, "svc-x", []⟩ : TimelineEvent) (by decide)

/-- C10: the `__all__` list of each package manifest names exactly the names imported at
the top of the module; the public surface of `app.models` is exactly
{Base, Incident, IncidentSeverity, IncidentStatus, TimelineEvent, ChangeType,
ChangeSource} with no `Correlation` export, and the public surface of
`app.api.routes` is exactly {health, kubernetes, jenkins, incidents, timeline,
selfservice, gitflow}: one route module per `ChangeSource` plus health,
incidents and timeline. -/
theorem manifests_public_surface :
    models_all = models_imports ∧
    routes_all = routes_imports ∧
    "Correlation" ∉ models_all ∧
    (∀ n, n ∈ models_all ↔ n ∈ ["Base", "Incident", "IncidentSeverity",
      "IncidentStatus", "TimelineEvent", "ChangeType", "ChangeSource"]) ∧
    (∀ n, n ∈ routes_all ↔
      (n ∈ ["health", "incidents", "timeline"] ∨ ∃ s ∈ allSources, routeOf s = n)) := by
  refine ⟨rfl, rfl, by decide, fun n => by rfl, fun n => ?_⟩
  constructor
  · intro hn
    simp only [routes_all, List.mem_cons, List.not_mem_nil, or_false] at hn
    rcases hn with h | h | h | h | h | h | h
    · exact Or.inl (by simp [h])
    · exact Or.inr ⟨.Kubernetes, by simp [allSources], by simp [routeOf, h]⟩
    · exact Or.inr ⟨.Jenkins, by simp [allSources], by simp [routeOf, h]⟩
    · exact Or.inl (by simp [h])
    · exact Or.inl (by simp [h])
    · exact Or.inr ⟨.SelfService, by simp [allSources], by simp [routeOf, h]⟩
    · exact Or.inr ⟨.GitFlow, by simp [allSources], by simp [routeOf, h]⟩
  · intro hn
    rcases hn with h | ⟨s, _, hs⟩
    · simp only [List.mem_cons, List.not_mem_nil, or_false] at h
      rcases h with h | h | h <;> simp [routes_all, h]
    · cases s <;> simp [routeOf] at hs <;> simp [routes_all, ← hs]

theorem openNew_inv (i : Nat) (sev : IncidentSeverity) (t : Int)
    (keys : List String) : incidentInv (Incident.openNew i sev t keys) := by
  show IncidentStatus.Open ≠ IncidentStatus.Resolved
  decide

theorem acknowledge_inv (inc : Incident) (h : incidentInv inc) :
    incidentInv inc.acknowledge := by
  obtain ⟨i, sev, st, op, res, keys⟩ := inc
  cases res <;> cases st <;> simp_all [Incident.acknowledge, incidentInv]

theorem resolve_inv (inc : Incident) (t : Int) (h : incidentInv inc) :
    incidentInv (inc.resolve t) := by
  obtain ⟨i, sev, st, op, res, keys⟩ := inc
  cases res <;> cases st <;>
    simp_all [Incident.resolve, incidentInv, le_max_right]

theorem runIncident_inv (inc : Incident) (ops : List RegOp)
    (h : incidentInv inc) : incidentInv (runIncident inc ops) := by
  induction ops generalizing inc with
  | nil => exact h
  | cons op rest ih =>
    have hstep : incidentInv (stepIncident inc op) := by
      cases op with
      | ack => exact acknowledge_inv inc h
      | resolveAt t => exact resolve_inv inc t h
    exact ih (stepIncident inc op) hstep

/-- C6: every incident reachable by opening and then running any sequence of
lifecycle operations satisfies the invariant (`resolved_at` set iff status is
Resolved, and `resolved_at >= opened_at` when set), and each lifecycle
operation — acknowledge and resolve — preserves the invariant. -/
theorem incident_lifecycle_invariant :
    (∀ (i : Nat) (sev : IncidentSeverity) (t : Int) (keys : List String)
       (ops : List RegOp),
      incidentInv (runIncident (Incident.openNew i sev t keys) ops)) ∧
    (∀ inc : Incident, incidentInv inc → incidentInv inc.acknowledge) ∧
    (∀ (inc : Incident) (t : Int), incidentInv inc → incidentInv (inc.resolve t)) :=
  ⟨fun i sev t keys ops => runIncident_inv _ ops (openNew_inv i sev t keys),
   fun inc h => acknowledge_inv inc h,
   fun inc t h => resolve_inv inc t h⟩

/-- C6 witness: the invariant holds along a concrete open/ack/resolve run and
each operation preserves it at a concrete incident. -/
theorem incident_lifecycle_invariant_witness :
    incidentInv (runIncident (Incident.openNew 1 .High 10 ["svc-x"])
      [.ack, .resolveAt 25]) ∧
    incidentInv (Incident.acknowledge ⟨1, .High, .Open, 10, none, ["svc-x"]⟩) ∧
    incidentInv (Incident.resolve ⟨1, .Medium, .Acknowledged, 10, none, ["svc-x"]⟩ 25) :=
  ⟨incident_lifecycle_invariant.1 1 .High 10 ["svc-x"] [.ack, .resolveAt 25],
   incident_lifecycle_invariant.2.1 ⟨1, .High, .Open, 10, none, ["svc-x"]⟩ (by decide),
   incident_lifecycle_invariant.2.2 ⟨1, .Medium, .Acknowledged, 10, none, ["svc-x"]⟩ 25
     (by decide)⟩

/-- C8 counterexample: an empty payload under the Jenkins adapter derives no
resource identifier, yet normalization fails with `UnrecognizedChangeType`
(the change-type check comes first), not `MissingResourceKey` — so
"fails with MissingResourceKey exactly when no resource identifier can be
derived" is false as stated. -/
theorem normalize_missing_both_counterexample :
    ¬ (resourceKeyOf [] = none →
        normalize ChangeSource.Jenkins [] 0 0 0 =
          Except.error NormalizationError.MissingResourceKey) := by
  intro h
  have h2 : (Except.error NormalizationError.UnrecognizedChangeType :
      Except NormalizationError TimelineEvent) =
      Except.error NormalizationError.MissingResourceKey := h rfl
  simp at h2

/-- C8 (amended): `normalize` fails with `UnrecognizedChangeType` exactly when
the payload maps to no `change_type` variant; fails with `MissingResourceKey`
exactly when a `change_type` is derivable but no resource identifier is; and
returns a TimelineEvent exactly when both are derivable.  The model is a pure
function: no side effect beyond the returned value, no storage write. -/
theorem normalize_error_characterization (src : ChangeSource)
    (p : List (String × String)) (idv : Nat) (occ rcv : Int) :
    (normalize src p idv occ rcv = .error .UnrecognizedChangeType ↔
      changeTypeOf src p = none) ∧
    (normalize src p idv occ rcv = .error .MissingResourceKey ↔
      (changeTypeOf src p).isSome ∧ resourceKeyOf p = none) ∧
    ((∃ ev, normalize src p idv occ rcv = .ok ev) ↔
      (changeTypeOf src p).isSome ∧ (resourceKeyOf p).isSome) := by
  unfold normalize
  cases hct : changeTypeOf src p <;> cases hrk : resourceKeyOf p <;>
    simp [hct, hrk]

theorem upsert_mem_self (c : Correlation) (cs : List Correlation) :
    c ∈ upsert c cs := by
  induction cs with
  | nil => exact List.mem_singleton.mpr rfl
  | cons x xs ih =>
    rw [upsert]
    split
    · exact List.mem_cons_self c xs
    · exact List.mem_cons_of_mem x ih

theorem upsert_mem_of_key_ne (c x : Correlation) (cs : List Correlation)
    (hne : ckey x ≠ ckey c) (hx : x ∈ cs) : x ∈ upsert c cs := by
  induction cs with
  | nil => cases hx
  | cons y ys ih =>
    rw [upsert]
    rcases List.mem_cons.mp hx with rfl | h2
    · split
      · rename_i hk
        exact absurd hk hne
      · exact List.mem_cons_self x (upsert c ys)
    · split
      · exact List.mem_cons_of_mem c h2
      · exact List.mem_cons_of_mem y (ih h2)

theorem evaluate_eq_of_both (now : Int) (inc : Incident) (e : TimelineEvent)
    (hr : resourceMatches inc e = true)
    (ht : windowContains now inc e.occurred_at = true) :
    evaluate now inc e =
      some ⟨e.id, inc.id, confBoth (dist e.occurred_at inc.opened_at), .Both⟩ := by
  unfold evaluate
  simp [hr, ht]

theorem evaluate_ids (now : Int) (inc : Incident) (e : TimelineEvent)
    (c : Correlation) (h : evaluate now inc e = some c) :
    c.event_id = e.id ∧ c.incident_id = inc.id := by
  unfold evaluate at h
  dsimp only at h
  split at h
  · injection h with h2
    rw [← h2]
    exact ⟨rfl, rfl⟩
  · split at h
    · injection h with h2
      rw [← h2]
      exact ⟨rfl, rfl⟩
    · split at h
      · injection h with h2
        rw [← h2]
        exact ⟨rfl, rfl⟩
      · cases h

theorem processEvent_cons (now : Int) (a : Incident) (rest : List Incident)
    (e : TimelineEvent) (cs : List Correlation) :
    processEvent now (a :: rest) e cs =
      processEvent now rest e
        (match evaluate now a e with
         | some c => upsert c cs
         | none => cs) := rfl

theorem processEvent_preserves (now : Int) (e : TimelineEvent) (x : Correlation)
    (incs : List Incident) (cs : List Correlation)
    (h : ∀ inc ∈ incs, inc.id ≠ x.incident_id) (hx : x ∈ cs) :
    x ∈ processEvent now incs e cs := by
  induction incs generalizing cs with
  | nil => exact hx
  | cons a rest ih =>
    rw [processEvent_cons]
    apply ih _ (fun inc hi => h inc (List.mem_cons_of_mem a hi))
    cases he : evaluate now a e with
    | none => exact hx
    | some c =>
      apply upsert_mem_of_key_ne c x cs _ hx
      intro hkey
      have hsnd : x.incident_id = c.incident_id := congrArg Prod.snd hkey
      rw [(evaluate_ids now a e c he).2] at hsnd
      exact h a (List.mem_cons_self a rest) hsnd.symm

/-- C3: after the Correlation Engine processes an admitted event, every
incident (from a registry with unique ids) whose correlation window overlaps
the `occurred_at` of the event and whose `affected_resource_keys` contains the
`resource_key` of the event has a Correlation to that event with `basis = Both`. -/
theorem correlation_completeness (now : Int) (e : TimelineEvent) (inc : Incident)
    (hr : resourceMatches inc e = true)
    (ht : windowContains now inc e.occurred_at = true) :
    ∀ (incs : List Incident) (cs : List Correlation),
      inc ∈ incs → (incs.map Incident.id).Nodup →
      ∃ c ∈ processEvent now incs e cs,
        c.event_id = e.id ∧ c.incident_id = inc.id ∧ c.basis = .Both := by
  intro incs
  induction incs with
  | nil =>
    intro cs hin _
    cases hin
  | cons a rest ih =>
    intro cs hin hids
    rw [processEvent_cons]
    rcases List.mem_cons.mp hin with rfl | hin2
    · rw [evaluate_eq_of_both now inc e hr ht]
      refine ⟨⟨e.id, inc.id, confBoth (dist e.occurred_at inc.opened_at), .Both⟩,
        processEvent_preserves now e _ rest _ ?_ (upsert_mem_self _ cs),
        rfl, rfl, rfl⟩
      intro b hb
      have h1 : inc.id ∉ rest.map Incident.id := by
        rw [List.map_cons, List.nodup_cons] at hids
        exact hids.1
      intro hbid
      apply h1
      have hb2 : b.id = inc.id := hbid
      rw [← hb2]
      exact List.mem_map_of_mem Incident.id hb
    · have hids2 : (rest.map Incident.id).Nodup := by
        rw [List.map_cons, List.nodup_cons] at hids
        exact hids.2
      cases he : evaluate now a e with
      | none => exact ih _ hin2 hids2
      | some c => exact ih _ hin2 hids2

/-- C3 witness: Scenario A — a Deployment for `svc-x` two minutes before an
incident opened for `svc-x` yields a Both-basis correlation. -/
theorem correlation_completeness_witness :
    resourceMatches ⟨1, .High, .Open, 1200, none, ["svc-x"]⟩
      (⟨1, 1080, 1081, .Deployment, .Kubernetes, "svc-x", []⟩ : TimelineEvent) = true ∧
    windowContains 2000 ⟨1, .High, .Open, 1200, none, ["svc-x"]⟩ 1080 = true ∧
    ∃ c ∈ processEvent 2000 [⟨1, .High, .Open, 1200, none, ["svc-x"]⟩]
        (⟨1, 1080, 1081, .Deployment, .Kubernetes, "svc-x", []⟩ : TimelineEvent) [],
      c.event_id = 1 ∧ c.incident_id = 1 ∧ c.basis = .Both :=
  ⟨by decide, by decide,
   correlation_completeness 2000
     (⟨1, 1080, 1081, .Deployment, .Kubernetes, "svc-x", []⟩ : TimelineEvent)
     ⟨1, .High, .Open, 1200, none, ["svc-x"]⟩ (by decide) (by decide)
     [⟨1, .High, .Open, 1200, none, ["svc-x"]⟩] []
     (List.mem_singleton.mpr rfl) (by decide)⟩

theorem confBoth_antitone (d1 d2 : Int) (h : d1 ≤ d2) :
    confBoth d2 ≤ confBoth d1 := by
  unfold confBoth
  have hc : (d1 : ℚ) ≤ (d2 : ℚ) := by exact_mod_cast h
  have hdiv : (d1 : ℚ) / 36000 ≤ (d2 : ℚ) / 36000 := by linarith
  have hm : min (1/10 : ℚ) ((d1 : ℚ) / 36000) ≤ min (1/10 : ℚ) ((d2 : ℚ) / 36000) :=
    min_le_min (le_refl _) hdiv
  linarith

theorem evaluate_both_confidence (now : Int) (inc : Incident) (e : TimelineEvent)
    (c : Correlation) (h : evaluate now inc e = some c) (hb : c.basis = .Both) :
    c.confidence = confBoth (dist e.occurred_at inc.opened_at) := by
  unfold evaluate at h
  dsimp only at h
  split at h
  · injection h with h2
    rw [← h2]
  · split at h
    · injection h with h2
      rw [← h2] at hb
      cases hb
    · split at h
      · injection h with h2
        rw [← h2] at hb
        cases hb
      · cases h

/-- C4: for two events both correlated to the same incident with
`basis = Both`, the one whose `occurred_at` is closer to the
`opened_at` of the incident has confidence greater than or equal to the farther one. -/
theorem confidence_monotonicity (now : Int) (inc : Incident)
    (e1 e2 : TimelineEvent) (c1 c2 : Correlation)
    (h1 : evaluate now inc e1 = some c1) (hb1 : c1.basis = .Both)
    (h2 : evaluate now inc e2 = some c2) (hb2 : c2.basis = .Both)
    (hd : dist e1.occurred_at inc.opened_at ≤ dist e2.occurred_at inc.opened_at) :
    c2.confidence ≤ c1.confidence := by
  rw [evaluate_both_confidence now inc e1 c1 h1 hb1,
      evaluate_both_confidence now inc e2 c2 h2 hb2]
  exact confBoth_antitone _ _ hd

/-- C4 witness: two Both-basis events against one incident, at distances 50
and 200 seconds from `opened_at`; the confidence of the closer one dominates. -/
theorem confidence_monotonicity_witness :
    evaluate 2000 ⟨1, .High, .Open, 1200, none, ["svc-x"]⟩
        (⟨1, 1150, 1151, .Deployment, .Kubernetes, "svc-x", []⟩ : TimelineEvent)
      = some ⟨1, 1, confBoth (dist 1150 1200), .Both⟩ ∧
    evaluate 2000 ⟨1, .High, .Open, 1200, none, ["svc-x"]⟩
        (⟨2, 1000, 1001, .Deployment, .Kubernetes, "svc-x", []⟩ : TimelineEvent)
      = some ⟨2, 1, confBoth (dist 1000 1200), .Both⟩ ∧
    dist 1150 1200 ≤ dist 1000 1200 ∧
    (⟨2, 1, confBoth (dist 1000 1200), .Both⟩ : Correlation).confidence ≤
      (⟨1, 1, confBoth (dist 1150 1200), .Both⟩ : Correlation).confidence :=
  ⟨evaluate_eq_of_both 2000 ⟨1, .High, .Open, 1200, none, ["svc-x"]⟩
     (⟨1, 1150, 1151, .Deployment, .Kubernetes, "svc-x", []⟩ : TimelineEvent)
     (by decide) (by decide),
   evaluate_eq_of_both 2000 ⟨1, .High, .Open, 1200, none, ["svc-x"]⟩
     (⟨2, 1000, 1001, .Deployment, .Kubernetes, "svc-x", []⟩ : TimelineEvent)
     (by decide) (by decide),
   by decide,
   confidence_monotonicity 2000 ⟨1, .High, .Open, 1200, none, ["svc-x"]⟩
     (⟨1, 1150, 1151, .Deployment, .Kubernetes, "svc-x", []⟩ : TimelineEvent)
     (⟨2, 1000, 1001, .Deployment, .Kubernetes, "svc-x", []⟩ : TimelineEvent)
     ⟨1, 1, confBoth (dist 1150 1200), .Both⟩
     ⟨2, 1, confBoth (dist 1000 1200), .Both⟩
     (evaluate_eq_of_both 2000 ⟨1, .High, .Open, 1200, none, ["svc-x"]⟩
       (⟨1, 1150, 1151, .Deployment, .Kubernetes, "svc-x", []⟩ : TimelineEvent)
       (by decide) (by decide))
     rfl
     (evaluate_eq_of_both 2000 ⟨1, .High, .Open, 1200, none, ["svc-x"]⟩
       (⟨2, 1000, 1001, .Deployment, .Kubernetes, "svc-x", []⟩ : TimelineEvent)
       (by decide) (by decide))
     rfl (by decide)⟩

theorem upsert_map_ckey_of_mem (c : Correlation) (cs : List Correlation)
    (h : ∃ x ∈ cs, ckey x = ckey c) :
    (upsert c cs).map ckey = cs.map ckey := by
  induction cs with
  | nil =>
    obtain ⟨x, hx, _⟩ := h
    cases hx
  | cons y ys ih =>
    rw [upsert]
    split
    · rename_i hk
      simp [hk]
    · rename_i hk
      obtain ⟨x, hx, hkey⟩ := h
      rcases List.mem_cons.mp hx with rfl | h2
      · exact absurd hkey hk
      · simp [ih ⟨x, h2, hkey⟩]

theorem upsert_append_of_not_mem (c : Correlation) (cs : List Correlation)
    (h : ∀ x ∈ cs, ckey x ≠ ckey c) : upsert c cs = cs ++ [c] := by
  induction cs with
  | nil => rfl
  | cons y ys ih =>
    rw [upsert, if_neg (h y (List.mem_cons_self y ys)),
        ih (fun x hx => h x (List.mem_cons_of_mem y hx))]
    rfl

theorem upsert_keysNodup (c : Correlation) (cs : List Correlation)
    (h : KeysNodup cs) : KeysNodup (upsert c cs) := by
  by_cases hm : ∃ x ∈ cs, ckey x = ckey c
  · unfold KeysNodup at h ⊢
    rw [upsert_map_ckey_of_mem c cs hm]
    exact h
  · push_neg at hm
    unfold KeysNodup at h ⊢
    rw [upsert_append_of_not_mem c cs hm, List.map_append, List.nodup_append]
    refine ⟨h, List.nodup_singleton _, ?_⟩
    intro a ha hb
    rw [List.map_singleton, List.mem_singleton] at hb
    obtain ⟨x, hx, hxa⟩ := List.mem_map.mp ha
    exact hm x hx (hxa.trans hb)

theorem processEvent_keysNodup (now : Int) (e : TimelineEvent)
    (incs : List Incident) (cs : List Correlation) (h : KeysNodup cs) :
    KeysNodup (processEvent now incs e cs) := by
  induction incs generalizing cs with
  | nil => exact h
  | cons a rest ih =>
    rw [processEvent_cons]
    apply ih
    cases he : evaluate now a e with
    | none => exact h
    | some c => exact upsert_keysNodup c cs h

theorem reevaluate_map_ckey (now : Int) (inc : Incident)
    (store : List TimelineEvent) (cs : List Correlation) :
    (reevaluate now inc store cs).map ckey = cs.map ckey := by
  unfold reevaluate
  rw [List.map_map]
  apply List.map_congr_left
  intro c _
  dsimp only [Function.comp]
  split
  · rename_i hid
    split
    · rename_i e he
      split
      · rename_i cN hcN
        have hk := evaluate_ids now inc e cN hcN
        have hef : e.id = c.event_id := by
          simpa using List.find?_some he
        simp [ckey, hk.1, hk.2, hef, hid]
      · rfl
    · rfl
  · rfl

theorem stepEngine_keysNodup (cs : List Correlation) (op : EngineOp)
    (h : KeysNodup cs) : KeysNodup (stepEngine cs op) := by
  cases op with
  | process now incs e => exact processEvent_keysNodup now e incs cs h
  | reeval now inc store =>
    unfold KeysNodup at h ⊢
    show ((reevaluate now inc store cs).map ckey).Nodup
    rw [reevaluate_map_ckey]
    exact h

theorem runEngine_keysNodup (cs : List Correlation) (ops : List EngineOp)
    (h : KeysNodup cs) : KeysNodup (runEngine cs ops) := by
  induction ops generalizing cs with
  | nil => exact h
  | cons op rest ih => exact ih _ (stepEngine_keysNodup cs op h)

/-- C7: after any sequence of event processings and re-evaluations from an
empty store of correlations, there is at most one Correlation record per
`(event_id, incident_id)` pair; and upserting a recomputed record for an
existing pair updates it in place — the record count and the key sequence are
unchanged, no second record is created. -/
theorem correlation_key_uniqueness :
    (∀ ops : List EngineOp, KeysNodup (runEngine [] ops)) ∧
    (∀ (cs : List Correlation) (c : Correlation),
      (∃ x ∈ cs, ckey x = ckey c) →
      (upsert c cs).length = cs.length ∧
      (upsert c cs).map ckey = cs.map ckey) := by
  constructor
  · intro ops
    exact runEngine_keysNodup [] ops List.nodup_nil
  · intro cs c hm
    have hmap := upsert_map_ckey_of_mem c cs hm
    refine ⟨?_, hmap⟩
    have hlen := congrArg List.length hmap
    simpa using hlen

/-- C7 witness: one processed event keeps keys unique, and re-upserting a
record for an existing `(event_id, incident_id)` pair keeps the store at one
record with the same key. -/
theorem correlation_key_uniqueness_witness :
    KeysNodup (runEngine [] [EngineOp.process 2000
      [⟨1, .High, .Open, 1200, none, ["svc-x"]⟩]
      (⟨1, 1080, 1081, .Deployment, .Kubernetes, "svc-x", []⟩ : TimelineEvent)]) ∧
    (∃ x ∈ [(⟨1, 1, 1, .Both⟩ : Correlation)],
      ckey x = ckey (⟨1, 1, 1/2, .ResourceMatch⟩ : Correlation)) ∧
    (upsert (⟨1, 1, 1/2, .ResourceMatch⟩ : Correlation)
      [(⟨1, 1, 1, .Both⟩ : Correlation)]).length =
      [(⟨1, 1, 1, .Both⟩ : Correlation)].length ∧
    (upsert (⟨1, 1, 1/2, .ResourceMatch⟩ : Correlation)
      [(⟨1, 1, 1, .Both⟩ : Correlation)]).map ckey =
      [(⟨1, 1, 1, .Both⟩ : Correlation)].map ckey :=
  ⟨correlation_key_uniqueness.1 [EngineOp.process 2000
      [⟨1, .High, .Open, 1200, none, ["svc-x"]⟩]
      (⟨1, 1080, 1081, .Deployment, .Kubernetes, "svc-x", []⟩ : TimelineEvent)],
   ⟨⟨1, 1, 1, .Both⟩, List.mem_singleton.mpr rfl, rfl⟩,
   (correlation_key_uniqueness.2 [(⟨1, 1, 1, .Both⟩ : Correlation)]
     (⟨1, 1, 1/2, .ResourceMatch⟩ : Correlation)
     ⟨⟨1, 1, 1, .Both⟩, List.mem_singleton.mpr rfl, rfl⟩).1,
   (correlation_key_uniqueness.2 [(⟨1, 1, 1, .Both⟩ : Correlation)]
     (⟨1, 1, 1/2, .ResourceMatch⟩ : Correlation)
     ⟨⟨1, 1, 1, .Both⟩, List.mem_singleton.mpr rfl, rfl⟩).2⟩

/-- C9: an event older than the oldest event already correlated to an incident
whose correlation window has closed (the engine-supplied lateness threshold) is
classified `LateArrival` with its lateness, is still appended to the
append-only history, and the triggered re-evaluation of the affected incident
recomputes confidences while keeping every pre-existing Correlation record —
the key sequence of the correlation store is unchanged. -/
theorem late_arrival_reevaluation (st : BufferState)
    (store : List TimelineEvent) (incs : List Incident)
    (cs : List Correlation) (e : TimelineEvent) (t now : Int) (inc : Incident)
    (hthr : oldestClosedCorrelated incs cs store = some t)
    (hl : e.occurred_at < t)
    (hw : (pruneWindow e.received_at st.window).any
            (fun r => dedup_key r = dedup_key e) = false)
    (hs : store.any (fun x => dedup_key x = dedup_key e) = false) :
    (admitEvent t e st).1 = .LateArrival e (max st.watermark t - e.occurred_at) ∧
    TimelineStore.append store e = store ++ [e] ∧
    e ∈ TimelineStore.append store e ∧
    (reevaluate now inc (store ++ [e]) cs).map ckey = cs.map ckey := by
  have happ : TimelineStore.append store e = store ++ [e] := by
    unfold TimelineStore.append
    simp [hs]
  refine ⟨?_, happ, ?_, reevaluate_map_ckey now inc (store ++ [e]) cs⟩
  · unfold admitEvent
    dsimp only
    rw [if_neg (by simp [hw])]
    rw [if_pos (lt_of_lt_of_le hl (le_max_right st.watermark t))]
  · rw [happ]
    exact List.mem_append_right store (List.mem_singleton.mpr rfl)

/-- C9 witness: Scenario C — a GitFlow MergeToMain event arriving well after
its claimed `occurred_at`, once the related (resolved) incident has been
correlated, is flagged LateArrival, appended to history, and the
correlation set of the incident is re-evaluated with no record discarded. -/
theorem late_arrival_reevaluation_witness :
    oldestClosedCorrelated [⟨1, .High, .Resolved, 1000, some 1500, ["svc-x"]⟩]
      [(⟨1, 1, 1, .Both⟩ : Correlation)]
      [(⟨1, 1200, 1210, .Deployment, .Kubernetes, "svc-x", []⟩ : TimelineEvent)]
      = some 1200 ∧
    (600 : Int) < 1200 ∧
    (admitEvent 1200 (⟨2, 600, 1800, .MergeToMain, .GitFlow, "svc-x", []⟩ : TimelineEvent)
        (BufferState.mk [] [] [] [] 0)).1
      = .LateArrival (⟨2, 600, 1800, .MergeToMain, .GitFlow, "svc-x", []⟩ : TimelineEvent)
          (max 0 1200 - 600) ∧
    (⟨2, 600, 1800, .MergeToMain, .GitFlow, "svc-x", []⟩ : TimelineEvent) ∈
      TimelineStore.append
        [(⟨1, 1200, 1210, .Deployment, .Kubernetes, "svc-x", []⟩ : TimelineEvent)]
        (⟨2, 600, 1800, .MergeToMain, .GitFlow, "svc-x", []⟩ : TimelineEvent) ∧
    (reevaluate 2000 ⟨1, .High, .Resolved, 1000, some 1500, ["svc-x"]⟩
        ([(⟨1, 1200, 1210, .Deployment, .Kubernetes, "svc-x", []⟩ : TimelineEvent)] ++
          [(⟨2, 600, 1800, .MergeToMain, .GitFlow, "svc-x", []⟩ : TimelineEvent)])
        [(⟨1, 1, 1, .Both⟩ : Correlation)]).map ckey =
      [(⟨1, 1, 1, .Both⟩ : Correlation)].map ckey := by
  have h := late_arrival_reevaluation (BufferState.mk [] [] [] [] 0)
    [(⟨1, 1200, 1210, .Deployment, .Kubernetes, "svc-x", []⟩ : TimelineEvent)]
    [⟨1, .High, .Resolved, 1000, some 1500, ["svc-x"]⟩]
    [(⟨1, 1, 1, .Both⟩ : Correlation)]
    (⟨2, 600, 1800, .MergeToMain, .GitFlow, "svc-x", []⟩ : TimelineEvent)
    1200 2000 ⟨1, .High, .Resolved, 1000, some 1500, ["svc-x"]⟩
    (by decide) (by decide) (by decide) (by decide)
  exact ⟨by decide, by decide, h.1, h.2.2.1, h.2.2.2⟩

end NexOps
